import Mathlib

/-!
Shallow embedding of the SMS-template coverage engine (`coverage.py`).

Text is modelled as `List Nat` of character codepoints.  Python's `\s`
whitespace class, `str.lower`/`str.upper`, `str.strip`, `re.sub(r'\s+', ' ')`,
the placeholder splitter `re.split(r'(<.*?>)')`, `re.escape` (Python ≥ 3.7
semantics, where the space character is escaped to `\ `) followed by the two
space-relaxation replaces, and regex fullmatch of the generated anchored
patterns are each embedded below.  The generated patterns only ever contain
escaped literal characters, `\s*` runs and `.*?` wildcards, so matching is
modelled by the fragment language `Frag`.  All functions are structurally
recursive so that every concrete run evaluates by `decide`.
-/

/-- Python regex ASCII whitespace class `\s` (also the characters stripped by
`str.strip` on the ASCII range): space, tab, newline, carriage return,
vertical tab, form feed. -/
def isPySpace (c : Nat) : Bool :=
  c == 32 || c == 9 || c == 10 || c == 13 || c == 11 || c == 12

/-- `str.lower` on one codepoint (ASCII range, as exercised by the data). -/
def pyLower (c : Nat) : Nat :=
  if 65 ≤ c ∧ c ≤ 90 then c + 32 else c

/-- `str.upper` on one codepoint (ASCII range). -/
def pyUpper (c : Nat) : Nat :=
  if 97 ≤ c ∧ c ≤ 122 then c - 32 else c

/-- `str.strip()`: drop leading and trailing whitespace. -/
def pyStrip (s : List Nat) : List Nat :=
  ((s.dropWhile isPySpace).reverse.dropWhile isPySpace).reverse

/-- Scanner for `re.sub(r'\s+', ' ', text)`: replace every maximal whitespace
run by a single space (codepoint 32).  The flag records whether the scanner
is inside a whitespace run whose single replacement space was already
emitted. -/
def collapseAux : Bool → List Nat → List Nat
  | _, [] => []
  | true, c :: rest =>
      if isPySpace c then collapseAux true rest else c :: collapseAux false rest
  | false, c :: rest =>
      if isPySpace c then 32 :: collapseAux true rest else c :: collapseAux false rest

/-- `re.sub(r'\s+', ' ', text)`. -/
def collapseWS (s : List Nat) : List Nat :=
  collapseAux false s

/-- `normalize(text, is_template=False)`: lowercase, strip, collapse
whitespace runs to single spaces. -/
def normalizeText (s : List Nat) : List Nat :=
  collapseWS (pyStrip (s.map pyLower))

/-- The fragment language of the generated regex patterns: an escaped literal
character, a `\s*` produced from a (escaped) space of a literal template
segment, or the `.*?` produced from a `<...>` placeholder. -/
inductive Frag where
  | lit (c : Nat)
  | ws
  | wild
deriving DecidableEq, Repr

/-- One literal-segment character after `re.escape` and the two
space-to-`\s*` replaces: a space becomes `\s*`, any other character is an
escaped literal. -/
def litTok (c : Nat) : Frag :=
  if c == 32 then Frag.ws else Frag.lit c

/-- A whole literal segment of a template, compiled characterwise. -/
def litToks (s : List Nat) : List Frag :=
  s.map litTok

/-- Scanner for the placeholder-aware pattern construction of
`normalize(text, is_template=True)` over already-cleaned text: `re.split`
on `<.*?>` takes the leftmost `<` that still has a `>` after it up to that
first `>` as one placeholder (emitted as `.*?`), and compiles everything
else as escaped-and-space-relaxed literal text.  The flag records being
inside a placeholder. -/
def compileSt : Bool → List Nat → List Frag
  | _, [] => []
  | true, c :: rest =>
      if c == 62 then compileSt false rest else compileSt true rest
  | false, c :: rest =>
      if c == 60 && rest.contains 62 then Frag.wild :: compileSt true rest
      else litTok c :: compileSt false rest

/-- The fragment pattern of `normalize(text, is_template=True)` over cleaned
text. -/
def compileFrags (s : List Nat) : List Frag :=
  compileSt false s

/-- Whether the cleaned template text contains a placeholder, i.e. whether
`re.split(r'(<.*?>)', text)` finds a separator: some `<` with a `>` after
it. -/
def hasPH : List Nat → Bool
  | [] => false
  | c :: rest => (c == 60 && rest.contains 62) || hasPH rest

/-- `normalize(t, is_template=True)` followed by `re.compile`, semantically:
the anchored fragment pattern compiled from a raw template. -/
def patternOf (t : List Nat) : List Frag :=
  compileFrags (normalizeText t)

/-- The texts reachable from `s` by dropping a (possibly empty) leading run
of whitespace characters: the ways a `\s*` can consume. -/
def spaceSuffixes : List Nat → List (List Nat)
  | [] => [[]]
  | c :: rest => (c :: rest) :: (if isPySpace c then spaceSuffixes rest else [])

/-- The texts reachable from `s` by dropping a (possibly empty) leading run
of non-newline characters: the ways a `.*?` can consume. -/
def wildSuffixes : List Nat → List (List Nat)
  | [] => [[]]
  | c :: rest => (c :: rest) :: (if c == 10 then [] else wildSuffixes rest)

/-- Fullmatch of a fragment pattern against text (the `^...$` anchoring of
the generated pattern makes every match a whole-string match).  `\s*`
consumes any run of whitespace, `.*?` any run of non-newline characters;
whether a fullmatch exists does not depend on greediness. -/
def fmatch : List Frag → List Nat → Bool
  | [], s => s.isEmpty
  | Frag.lit c :: fs, s =>
      match s with
      | [] => false
      | x :: xs => x == c && fmatch fs xs
  | Frag.ws :: fs, s => (spaceSuffixes s).any (fun t => fmatch fs t)
  | Frag.wild :: fs, s => (wildSuffixes s).any (fun t => fmatch fs t)

/-- `is_covered(message, templates_list)`: normalize the message, return
whether some compiled template fullmatches it. -/
def is_covered (message : List Nat) (templates_list : List (List Frag)) : Bool :=
  templates_list.any (fun p => fmatch p (normalizeText message))

/-- The registry `templates`: sender key to compiled template list, with
Python-dict lookup. -/
def lookupReg (reg : List (List Nat × List (List Frag))) (k : List Nat) :
    Option (List (List Frag)) :=
  (reg.find? (fun e => e.1 == k)).map (fun e => e.2)

/-- `check_row(row)`: look the row's sender up in the registry; covered when
present and some template matches, `False` for an unknown sender. -/
def check_row (reg : List (List Nat × List (List Frag)))
    (row : List Nat × List Nat) : Bool :=
  match lookupReg reg row.1 with
  | some ts => is_covered row.2 ts
  | none => false

/-- The canonical sender key of a message record:
`messages_df['casa_sender_name'].str.upper().str.strip()`. -/
def msgSenderKey (s : List Nat) : List Nat :=
  pyStrip (s.map pyUpper)

/-- `.replace("_", " ")` on one codepoint. -/
def underscoreToSpace (c : Nat) : Nat :=
  if c == 95 then 32 else c

/-- The sender key derived from a template source file's base name:
`file.replace(".xlsx", "").upper().replace("_", " ").strip()`, applied here
to the base name. -/
def srcSenderKey (s : List Nat) : List Nat :=
  pyStrip ((s.map pyUpper).map underscoreToSpace)

/-- Modelled from the spec: the canonical sender key transform as the spec
words it — uppercase, trim, collapse internal whitespace runs.  Stated only
to be compared with the two transforms the code actually applies. -/
def specSenderKey (s : List Nat) : List Nat :=
  collapseWS (pyStrip (s.map pyUpper))

/-- The per-sender compile loop: skip `NaN` cells (`none`), compile each raw
template, keep it only when pattern construction succeeds.  `ok` stands for
the external regex engine accepting the generated pattern (`re.compile` not
raising `re.error`); the `except` branch drops the one template and
continues. -/
def compiled_templates (ok : List Frag → Bool) (raws : List (Option (List Nat))) :
    List (List Frag) :=
  raws.filterMap (fun t? =>
    match t? with
    | none => none
    | some t => if ok (patternOf t) then some (patternOf t) else none)

/-- The registry build loop over template source files, each a base name and
its raw template cells: every file gets an entry under its derived sender
key, holding whatever templates compiled. -/
def buildRegistry (ok : List Frag → Bool)
    (files : List (List Nat × List (Option (List Nat)))) :
    List (List Nat × List (List Frag)) :=
  files.map (fun f => (srcSenderKey f.1, compiled_templates ok f.2))

/-- The outcome of the evaluation unit for record `i`: `check_row` of the
record, or `False` when the unit raised (`fail i`), as in the
`except` branch of the result-collection loop. -/
def unitResult (reg : List (List Nat × List (List Frag)))
    (rows : List (List Nat × List Nat)) (fail : Nat → Bool) (i : Nat) : Bool :=
  if fail i then false else check_row reg (rows.getD i ([], []))

/-- `evaluateBatch`: `results = [None] * len(rows)`, then the units complete
in an arbitrary order `order`, each writing only `results[idx]` for its own
index. -/
def evaluateBatch (reg : List (List Nat × List (List Frag)))
    (rows : List (List Nat × List Nat)) (fail : Nat → Bool)
    (order : List Nat) : List (Option Bool) :=
  order.foldl (fun res i => res.set i (some (unitResult reg rows fail i)))
    (List.replicate rows.length none)

/-- `messages_df.groupby('casa_sender_name')`-style per-sender record count
over (sender, covered) pairs. -/
def senderTotal (rows : List (List Nat × Bool)) (s : List Nat) : Nat :=
  (rows.filter (fun r => r.1 == s)).length

/-- Per-sender count of covered records. -/
def senderCovered (rows : List (List Nat × Bool)) (s : List Nat) : Nat :=
  (rows.filter (fun r => r.1 == s && r.2)).length

/-- `coverage_summary['coverage_pct'] = 100 * covered / total`, in exact
arithmetic. -/
def coverage_pct (rows : List (List Nat × Bool)) (s : List Nat) : ℚ :=
  100 * (senderCovered rows s : ℚ) / (senderTotal rows s : ℚ)

/-- The senders that occur in the grouped data: the index of
`coverage_summary` (as a key collection; pandas sorts it, which only permutes
it). -/
def summarySenders (rows : List (List Nat × Bool)) : List (List Nat) :=
  (rows.map (fun r => r.1)).dedup

/-- The in-place canonicalization
`messages_df['casa_sender_name'] = ...str.upper().str.strip()` performed
before both dispatch and grouping. -/
def canonRecords (rows : List (List Nat × List Nat)) : List (List Nat × List Nat) :=
  rows.map (fun r => (msgSenderKey r.1, r.2))

/-- The (sender, covered) pairs that reach the aggregation stage: the
canonicalized sender column zipped with the per-record results. -/
def pipelineResults (reg : List (List Nat × List (List Frag)))
    (rows : List (List Nat × List Nat)) : List (List Nat × Bool) :=
  (canonRecords rows).map (fun r => (r.1, check_row reg r))

/-- The sender keys of the final coverage summary for a raw input batch. -/
def pipelineSummaryKeys (reg : List (List Nat × List (List Frag)))
    (rows : List (List Nat × List Nat)) : List (List Nat) :=
  summarySenders (pipelineResults reg rows)

/-- Modelled from the amended C4 reading: characterwise comparison where a
space of the (normalized) template matches zero or one space of the
(normalized) message and every other character matches exactly. -/
def spacesOpt : List Nat → List Nat → Bool
  | [], ms => ms.isEmpty
  | t :: ts, ms =>
      if t == 32 then
        spacesOpt ts ms ||
          (match ms with
           | m :: ms' => m == 32 && spacesOpt ts ms'
           | [] => false)
      else
        match ms with
        | m :: ms' => m == t && spacesOpt ts ms'
        | [] => false

/-- Whether a text starts with a whitespace character. -/
def headIsSpace : List Nat → Bool
  | [] => false
  | c :: _ => isPySpace c

/-- Whether a text ends with a whitespace character. -/
def lastIsSpace : List Nat → Bool
  | [] => false
  | [c] => isPySpace c
  | _ :: d :: rest => lastIsSpace (d :: rest)

/-- Whether a text contains a non-whitespace character. -/
def hasNonSpace (s : List Nat) : Bool :=
  s.any (fun c => !(isPySpace c))

/-- Whitespace-normal text: every whitespace character is exactly a space
(codepoint 32) and is never followed by another whitespace character — the
shape of `re.sub(r'\s+', ' ', ...)` output. -/
def wsNormal : List Nat → Bool
  | [] => true
  | c :: rest =>
      (if isPySpace c then c == 32 && !(headIsSpace rest) else true) && wsNormal rest

example : fmatch (patternOf [82, 115, 46, 32, 60, 97, 62, 32, 100])
    (normalizeText [114, 115, 46, 49, 48, 48, 32, 32, 100]) = true := by decide

example : patternOf [97, 32, 98] = [Frag.lit 97, Frag.ws, Frag.lit 98] := by decide

example : is_covered [97, 98] [patternOf [97, 32, 98]] = true := by decide

/-! Section: Helper lemmas -/

theorem map_id_of_fixed {f : Nat → Nat} {l : List Nat} (h : ∀ c ∈ l, f c = c) :
    l.map f = l := by
  induction l with
  | nil => rfl
  | cons c rest ih =>
      simp only [List.map_cons, h c (List.mem_cons_self c rest)]
      rw [ih (fun d hd => h d (List.mem_cons_of_mem c hd))]

theorem pyUpper_ne_95 {a : Nat} (ha : a ≠ 95) : pyUpper a ≠ 95 := by
  unfold pyUpper
  split <;> omega

/-! Section: C2: the two sender-key derivations -/

/-- Claim C2, counterexample. The two sender-key derivations are not the same
transform: on the sender string `"a_b"` the message-record derivation yields
`"A_B"` while the template-source derivation yields `"A B"`; moreover
neither derivation collapses internal whitespace runs, unlike the canonical
transform the claim describes, as `"a  b"` shows. -/
theorem C2_counterexample :
    msgSenderKey [97, 95, 98] ≠ srcSenderKey [97, 95, 98] ∧
      msgSenderKey [97, 32, 32, 98] ≠ specSenderKey [97, 32, 32, 98] := by
  decide

/-- Claim C2, amended. The message-record sender key is uppercase-then-trim
(no whitespace collapsing); the template-source sender key additionally
turns underscores into spaces before trimming; the two derivations agree on
every sender string that contains no underscore. -/
theorem C2_amended_keys_agree (s : List Nat) (h : (95 : Nat) ∉ s) :
    msgSenderKey s = srcSenderKey s := by
  unfold msgSenderKey srcSenderKey
  rw [map_id_of_fixed (f := underscoreToSpace)]
  intro c hc
  obtain ⟨a, ha, rfl⟩ := List.mem_map.mp hc
  have : pyUpper a ≠ 95 := pyUpper_ne_95 (fun h95 => h (h95 ▸ ha))
  simp [underscoreToSpace, this]

/-- Claim C2, witness for the amended theorem at the underscore-free sender
`"a b"`. -/
theorem C2_amended_witness :
    (95 : Nat) ∉ [97, 32, 98] ∧ msgSenderKey [97, 32, 98] = srcSenderKey [97, 32, 98] :=
  ⟨by decide, C2_amended_keys_agree [97, 32, 98] (by decide)⟩

/-! Section: C3: what the aggregator groups by -/

/-- Claim C3, counterexample. The sender column is canonicalized in place
before grouping, so for the input batch whose one record carries the raw
sender spelling `"h"` (codepoint 104) the summary key is `"H"` (72), not the
raw spelling. -/
theorem C3_counterexample :
    pipelineSummaryKeys [] [([104], [])] = [[72]] ∧
      pipelineSummaryKeys [] [([104], [])] ≠ [[104]] := by
  decide

/-- Claim C3, amended. The aggregator groups by the canonicalized
(uppercased, stripped) sender value — the same key used for the registry
lookup on the message side — so the summary keys are the canonical keys of
the input spellings, not the raw spellings themselves. -/
theorem C3_amended_keys_canonical (reg : List (List Nat × List (List Frag)))
    (rows : List (List Nat × List Nat)) :
    pipelineSummaryKeys reg rows = (rows.map (fun r => msgSenderKey r.1)).dedup := by
  simp [pipelineSummaryKeys, summarySenders, pipelineResults, canonRecords,
    List.map_map, Function.comp_def]

/-! Section: C5: coverage percentage bounds -/

theorem senderCovered_le_senderTotal (rows : List (List Nat × Bool)) (s : List Nat) :
    senderCovered rows s ≤ senderTotal rows s := by
  induction rows with
  | nil => simp [senderCovered, senderTotal]
  | cons r rest ih =>
      simp only [senderCovered, senderTotal, List.filter_cons] at *
      by_cases h1 : (r.1 == s) = true
      · by_cases h2 : r.2 = true
        · simp [h1, h2]; omega
        · simp only [Bool.not_eq_true] at h2
          simp [h1, h2]; omega
      · simp only [Bool.not_eq_true] at h1
        simp [h1]; omega

theorem senderTotal_pos_of_mem {rows : List (List Nat × Bool)} {s : List Nat}
    (hs : s ∈ summarySenders rows) : 0 < senderTotal rows s := by
  rw [summarySenders, List.mem_dedup] at hs
  obtain ⟨r, hr, hrs⟩ := List.mem_map.mp hs
  have : r ∈ rows.filter (fun r => r.1 == s) :=
    List.mem_filter.mpr ⟨hr, by simp [hrs]⟩
  exact List.length_pos_of_mem this

/-- Claim C5. Every sender that occurs in the grouped data has `total ≥ 1`,
its `coverage_pct` is exactly `100 * covered / total`, that value lies in
`[0, 100]`, and no sender with `total = 0` occurs in the summary. -/
theorem C5_coverage_pct_bounds (rows : List (List Nat × Bool)) (s : List Nat)
    (hs : s ∈ summarySenders rows) :
    1 ≤ senderTotal rows s ∧
      coverage_pct rows s = 100 * (senderCovered rows s : ℚ) / (senderTotal rows s : ℚ) ∧
      0 ≤ coverage_pct rows s ∧ coverage_pct rows s ≤ 100 ∧
      ∀ s', senderTotal rows s' = 0 → s' ∉ summarySenders rows := by
  have htot := senderTotal_pos_of_mem hs
  have hle := senderCovered_le_senderTotal rows s
  have htQ : (0 : ℚ) < (senderTotal rows s : ℚ) := by exact_mod_cast htot
  refine ⟨htot, rfl, ?_, ?_, ?_⟩
  · unfold coverage_pct
    positivity
  · unfold coverage_pct
    rw [div_le_iff₀ htQ]
    have : (senderCovered rows s : ℚ) ≤ (senderTotal rows s : ℚ) := by exact_mod_cast hle
    nlinarith
  · intro s' h0 hmem
    have := senderTotal_pos_of_mem hmem
    omega

/-- Claim C5, witness at a two-record batch for one sender, one record
covered. -/
theorem C5_witness :
    ([65] ∈ summarySenders [([65], true), ([65], false)]) ∧
      (1 ≤ senderTotal [([65], true), ([65], false)] [65] ∧
        coverage_pct [([65], true), ([65], false)] [65] =
          100 * (senderCovered [([65], true), ([65], false)] [65] : ℚ) /
            (senderTotal [([65], true), ([65], false)] [65] : ℚ) ∧
        0 ≤ coverage_pct [([65], true), ([65], false)] [65] ∧
        coverage_pct [([65], true), ([65], false)] [65] ≤ 100 ∧
        ∀ s', senderTotal [([65], true), ([65], false)] s' = 0 →
          s' ∉ summarySenders [([65], true), ([65], false)]) :=
  ⟨by decide, C5_coverage_pct_bounds _ _ (by decide)⟩

/-! Section: C6: unknown sender -/

/-- Claim C6. A message whose canonical sender key has no registry entry is
checked to `false`, whatever its text. -/
theorem C6_unknown_sender (reg : List (List Nat × List (List Frag)))
    (s m : List Nat) (h : lookupReg reg (msgSenderKey s) = none) :
    check_row reg (msgSenderKey s, m) = false := by
  simp [check_row, h]

/-- Claim C6, witness at the empty registry. -/
theorem C6_witness :
    lookupReg [] (msgSenderKey [104]) = none ∧
      check_row [] (msgSenderKey [104], [97]) = false :=
  ⟨by decide, C6_unknown_sender [] [104] [97] (by decide)⟩

/-! Section: C8: compile-failure isolation in the registry build -/

theorem compiled_templates_eq_nil {ok : List Frag → Bool}
    {raws : List (Option (List Nat))}
    (hfail : ∀ t, some t ∈ raws → ok (patternOf t) = false) :
    compiled_templates ok raws = [] := by
  rw [compiled_templates, List.filterMap_eq_nil_iff]
  intro t? ht?
  match t? with
  | none => rfl
  | some t => simp [hfail t ht?]

theorem lookup_buildRegistry (ok : List Frag → Bool)
    (files : List (List Nat × List (Option (List Nat))))
    (name : List Nat) (raws : List (Option (List Nat)))
    (hmem : (name, raws) ∈ files)
    (huniq : ∀ p ∈ files, srcSenderKey p.1 = srcSenderKey name → p = (name, raws)) :
    lookupReg (buildRegistry ok files) (srcSenderKey name) =
      some (compiled_templates ok raws) := by
  induction files with
  | nil => cases hmem
  | cons p rest ih =>
      by_cases hp : srcSenderKey p.1 = srcSenderKey name
      · have hpe := huniq p (List.mem_cons_self p rest) hp
        subst hpe
        simp [lookupReg, buildRegistry, List.find?_cons]
      · have hne : (srcSenderKey p.1 == srcSenderKey name) = false := by simp [hp]
        have hmem' : (name, raws) ∈ rest := by
          rcases List.mem_cons.mp hmem with h | h
          · exact absurd (by rw [← h]) hp
          · exact h
        have := ih hmem' (fun q hq hk => huniq q (List.mem_cons_of_mem p hq) hk)
        simpa [lookupReg, buildRegistry, List.find?_cons, hne] using this

/-- Claim C8. A sender all of whose raw templates fail pattern construction
still occupies a registry entry mapped to the empty list; that sender's
messages all check to `false`; and dropping one failing template leaves the
compilation of the remaining templates unchanged. -/
theorem C8_compile_failure_isolated (ok : List Frag → Bool)
    (files : List (List Nat × List (Option (List Nat))))
    (name : List Nat) (raws : List (Option (List Nat)))
    (hmem : (name, raws) ∈ files)
    (huniq : ∀ p ∈ files, srcSenderKey p.1 = srcSenderKey name → p = (name, raws))
    (hfail : ∀ t, some t ∈ raws → ok (patternOf t) = false) :
    (srcSenderKey name, ([] : List (List Frag))) ∈ buildRegistry ok files ∧
      lookupReg (buildRegistry ok files) (srcSenderKey name) = some [] ∧
      (∀ m, check_row (buildRegistry ok files) (srcSenderKey name, m) = false) ∧
      ∀ (xs ys : List (Option (List Nat))) (t : List Nat), ok (patternOf t) = false →
        compiled_templates ok (xs ++ some t :: ys) = compiled_templates ok (xs ++ ys) := by
  have hnil := compiled_templates_eq_nil hfail
  have hlk : lookupReg (buildRegistry ok files) (srcSenderKey name) = some [] := by
    rw [lookup_buildRegistry ok files name raws hmem huniq, hnil]
  refine ⟨?_, hlk, ?_, ?_⟩
  · exact List.mem_map.mpr ⟨(name, raws), hmem, by rw [hnil]⟩
  · intro m
    simp [check_row, hlk, is_covered]
  · intro xs ys t ht
    simp [compiled_templates, List.filterMap_append, List.filterMap_cons, ht]

/-- Claim C8, witness: one source file whose single template the engine
rejects. -/
theorem C8_witness :
    (([97], [some [98]]) ∈ [(([97] : List Nat), [some ([98] : List Nat)])]) ∧
      ((srcSenderKey [97], ([] : List (List Frag))) ∈
          buildRegistry (fun _ => false) [([97], [some [98]])] ∧
        lookupReg (buildRegistry (fun _ => false) [([97], [some [98]])])
            (srcSenderKey [97]) = some [] ∧
        (∀ m, check_row (buildRegistry (fun _ => false) [([97], [some [98]])])
            (srcSenderKey [97], m) = false) ∧
        ∀ (xs ys : List (Option (List Nat))) (t : List Nat),
          (fun _ => false) (patternOf t) = false →
            compiled_templates (fun _ => false) (xs ++ some t :: ys) =
              compiled_templates (fun _ => false) (xs ++ ys)) :=
  ⟨by decide,
    C8_compile_failure_isolated (fun _ => false) [([97], [some [98]])] [97] [some [98]]
      (by decide) (by decide) (fun t _ => rfl)⟩

/-! Section: C10: unbalanced `<` is literal -/

theorem compileSt_false_no62 (s : List Nat) (h : (62 : Nat) ∉ s) :
    compileSt false s = litToks s := by
  induction s with
  | nil => rfl
  | cons c rest ih =>
      simp only [List.mem_cons, not_or] at h
      have hcond : (c == 60 && rest.contains 62) = false := by
        have hc : rest.contains 62 = false := by simp [h.2]
        rw [hc, Bool.and_false]
      simp only [compileSt, hcond, Bool.false_eq_true, if_false, litToks, List.map_cons]
      exact congrArg _ (ih h.2)

theorem compileSt_append (pre : List Nat) {X : List Nat} (hX : (62 : Nat) ∉ X) :
    compileSt false (pre ++ X) = compileSt false pre ++ litToks X ∧
      ((62 : Nat) ∈ pre → compileSt true (pre ++ X) = compileSt true pre ++ litToks X) := by
  induction pre with
  | nil =>
      refine ⟨by simpa [compileSt] using compileSt_false_no62 X hX, ?_⟩
      intro h
      exact absurd h (List.not_mem_nil 62)
  | cons c rest ih =>
      have hcont : (rest ++ X).contains 62 = rest.contains 62 := by
        by_cases h : (62 : Nat) ∈ rest
        · simp [List.mem_append, h]
        · have hnot : (62 : Nat) ∉ rest ++ X := by simp [List.mem_append, h, hX]
          simp [h, hnot]
      constructor
      · simp only [List.cons_append, compileSt, List.append_eq, hcont]
        by_cases hc : (c == 60 && rest.contains 62) = true
        · have h62rest : (62 : Nat) ∈ rest := by
            have h2 := ((Bool.and_eq_true _ _).mp hc).2
            simpa using h2
          rw [if_pos hc, if_pos hc, ih.2 h62rest, List.cons_append]
        · rw [if_neg hc, if_neg hc, ih.1, List.cons_append]
      · intro hmem
        simp only [List.cons_append, compileSt, List.append_eq]
        by_cases hc : (c == 62) = true
        · rw [if_pos hc, if_pos hc, ih.1]
        · have h62rest : (62 : Nat) ∈ rest := by
            rcases List.mem_cons.mp hmem with h | h
            · exact absurd (by simp [← h]) hc
            · exact h
          rw [if_neg hc, if_neg hc, ih.2 h62rest]

/-- Claim C10. A `<` in a template with no later `>` does not open a
placeholder: the compiled pattern carries it as the escaped literal
character 60, followed by the escaped remainder, and no wildcard arises from
that part of the template — pattern construction does not fail. -/
theorem C10_unbalanced_marker_literal (t pre post : List Nat)
    (hn : normalizeText t = pre ++ 60 :: post) (h62 : (62 : Nat) ∉ post) :
    patternOf t = compileFrags pre ++ (Frag.lit 60 :: litToks post) ∧
      Frag.wild ∉ Frag.lit 60 :: litToks post := by
  have hX : (62 : Nat) ∉ 60 :: post := by simp [h62]
  constructor
  · rw [patternOf, compileFrags, hn, (compileSt_append pre hX).1, compileFrags]
    simp [litToks, litTok]
  · intro hmem
    rcases List.mem_cons.mp hmem with h | h
    · exact Frag.noConfusion h
    · obtain ⟨c, _, hc⟩ := List.mem_map.mp h
      unfold litTok at hc
      by_cases h32 : (c == 32) = true
      · rw [if_pos h32] at hc; exact Frag.noConfusion hc
      · rw [if_neg h32] at hc; exact Frag.noConfusion hc

/-! Section: C9: idempotence of normalize -/

theorem pyLower_pyLower (c : Nat) : pyLower (pyLower c) = pyLower c := by
  by_cases h : 65 ≤ c ∧ c ≤ 90
  · have h1 : pyLower c = c + 32 := if_pos h
    rw [h1]
    unfold pyLower
    rw [if_neg (by omega)]
  · have h1 : pyLower c = c := if_neg h
    rw [h1]
    exact h1

theorem mem_collapseAux {c : Nat} :
    ∀ (f : Bool) (s : List Nat), c ∈ collapseAux f s → c = 32 ∨ c ∈ s := by
  intro f s
  induction s generalizing f with
  | nil =>
      intro h
      cases f <;> simp [collapseAux] at h
  | cons a rest ih =>
      intro h
      by_cases ha : isPySpace a = true
      · cases f
        · rw [collapseAux, if_pos ha] at h
          rcases List.mem_cons.mp h with h' | h'
          · exact Or.inl h'
          · rcases ih true h' with h'' | h''
            · exact Or.inl h''
            · exact Or.inr (List.mem_cons_of_mem a h'')
        · rw [collapseAux, if_pos ha] at h
          rcases ih true h with h'' | h''
          · exact Or.inl h''
          · exact Or.inr (List.mem_cons_of_mem a h'')
      · cases f <;> rw [collapseAux, if_neg ha] at h <;>
          rcases List.mem_cons.mp h with h' | h'
        · exact Or.inr (h' ▸ List.mem_cons_self a rest)
        · rcases ih false h' with h'' | h''
          · exact Or.inl h''
          · exact Or.inr (List.mem_cons_of_mem a h'')
        · exact Or.inr (h' ▸ List.mem_cons_self a rest)
        · rcases ih false h' with h'' | h''
          · exact Or.inl h''
          · exact Or.inr (List.mem_cons_of_mem a h'')

theorem mem_of_dropWhile {p : Nat → Bool} {l : List Nat} {c : Nat}
    (h : c ∈ l.dropWhile p) : c ∈ l := by
  rw [← List.takeWhile_append_dropWhile p l]
  exact List.mem_append_right _ h

theorem mem_pyStrip {c : Nat} {s : List Nat} (h : c ∈ pyStrip s) : c ∈ s := by
  rw [pyStrip, List.mem_reverse] at h
  have h1 := mem_of_dropWhile h
  rw [List.mem_reverse] at h1
  exact mem_of_dropWhile h1

theorem headIsSpace_dropWhile (l : List Nat) :
    headIsSpace (l.dropWhile isPySpace) = false := by
  induction l with
  | nil => rfl
  | cons a rest ih =>
      rw [List.dropWhile_cons]
      by_cases ha : isPySpace a = true
      · rw [if_pos ha]
        exact ih
      · rw [if_neg ha]
        simpa [headIsSpace] using ha

theorem headIsSpace_reverse (s : List Nat) : headIsSpace s.reverse = lastIsSpace s := by
  induction s with
  | nil => rfl
  | cons a rest ih =>
      cases rest with
      | nil => simp [headIsSpace, lastIsSpace]
      | cons b r =>
          have hne : (b :: r).reverse ≠ [] := by simp
          rw [show lastIsSpace (a :: b :: r) = lastIsSpace (b :: r) from rfl, ← ih]
          cases hrev : (b :: r).reverse with
          | nil => exact absurd hrev hne
          | cons x xs =>
              rw [List.reverse_cons, hrev, List.cons_append]
              rfl

theorem lastIsSpace_cons {l : List Nat} (a : Nat) (h : l ≠ []) :
    lastIsSpace (a :: l) = lastIsSpace l := by
  cases l with
  | nil => exact absurd rfl h
  | cons b r => rfl

theorem lastIsSpace_append {u z : List Nat} (h : z ≠ []) :
    lastIsSpace (u ++ z) = lastIsSpace z := by
  induction u with
  | nil => rfl
  | cons a u' ih =>
      rw [List.cons_append, lastIsSpace_cons a (by simp [h]), ih]

theorem headIsSpace_pyStrip (s : List Nat) : headIsSpace (pyStrip s) = false := by
  rw [pyStrip, headIsSpace_reverse]
  cases hz : (s.dropWhile isPySpace).reverse.dropWhile isPySpace with
  | nil => rfl
  | cons x xs =>
      have h1 : lastIsSpace ((s.dropWhile isPySpace).reverse) = false := by
        rw [← headIsSpace_reverse, List.reverse_reverse]
        exact headIsSpace_dropWhile s
      have hdec := List.takeWhile_append_dropWhile isPySpace (s.dropWhile isPySpace).reverse
      rw [hz] at hdec
      rw [← hdec, lastIsSpace_append (by simp)] at h1
      exact h1

theorem lastIsSpace_pyStrip (s : List Nat) : lastIsSpace (pyStrip s) = false := by
  rw [pyStrip, ← headIsSpace_reverse, List.reverse_reverse]
  exact headIsSpace_dropWhile _

theorem dropWhile_of_headNotSpace {l : List Nat} (h : headIsSpace l = false) :
    l.dropWhile isPySpace = l := by
  cases l with
  | nil => rfl
  | cons a rest =>
      have ha : ¬ isPySpace a = true := by simp [headIsSpace] at h; simp [h]
      rw [List.dropWhile_cons, if_neg ha]

theorem pyStrip_id {s : List Nat} (h1 : headIsSpace s = false)
    (h2 : lastIsSpace s = false) : pyStrip s = s := by
  rw [pyStrip, dropWhile_of_headNotSpace h1,
    dropWhile_of_headNotSpace (by rw [headIsSpace_reverse]; exact h2),
    List.reverse_reverse]

theorem hasNonSpace_of_lastNotSpace :
    ∀ {l : List Nat}, l ≠ [] → lastIsSpace l = false → hasNonSpace l = true := by
  intro l
  induction l with
  | nil => intro h; exact absurd rfl h
  | cons a rest ih =>
      intro _ h
      cases rest with
      | nil =>
          have ha : isPySpace a = false := by simpa [lastIsSpace] using h
          simp [hasNonSpace, ha]
      | cons b r =>
          have h' : lastIsSpace (b :: r) = false := h
          have := ih (by simp) h'
          simp only [hasNonSpace, List.any_cons, Bool.or_eq_true]
          right
          simpa [hasNonSpace] using this

theorem collapseAux_ne_nil {s : List Nat} (h : hasNonSpace s = true) :
    ∀ f, collapseAux f s ≠ [] := by
  induction s with
  | nil => simp [hasNonSpace] at h
  | cons a rest ih =>
      intro f
      by_cases ha : isPySpace a = true
      · have hrest : hasNonSpace rest = true := by
          simp only [hasNonSpace, List.any_cons, Bool.or_eq_true] at h
          rcases h with h | h
          · rw [ha] at h
            simp at h
          · simpa [hasNonSpace] using h
        cases f
        · rw [collapseAux, if_pos ha]
          simp
        · rw [collapseAux, if_pos ha]
          exact ih hrest true
      · cases f <;> rw [collapseAux, if_neg ha] <;> simp

theorem lastIsSpace_collapseAux :
    ∀ {s : List Nat}, lastIsSpace s = false → ∀ f, lastIsSpace (collapseAux f s) = false := by
  intro s
  induction s with
  | nil =>
      intro _ f
      cases f <;> rfl
  | cons a rest ih =>
      intro h f
      cases rest with
      | nil =>
          have ha : ¬ isPySpace a = true := by
            simp [lastIsSpace] at h
            simp [h]
          cases f <;> rw [collapseAux, if_neg ha] <;>
            simp [collapseAux, lastIsSpace] <;> simpa using ha
      | cons b r =>
          have hrest : lastIsSpace (b :: r) = false := h
          have hnonsp : hasNonSpace (b :: r) = true :=
            hasNonSpace_of_lastNotSpace (by simp) hrest
          by_cases ha : isPySpace a = true
          · cases f
            · rw [collapseAux, if_pos ha,
                lastIsSpace_cons 32 (collapseAux_ne_nil hnonsp true)]
              exact ih hrest true
            · rw [collapseAux, if_pos ha]
              exact ih hrest true
          · cases f <;>
              rw [collapseAux, if_neg ha,
                lastIsSpace_cons a (collapseAux_ne_nil hnonsp false)] <;>
              exact ih hrest false

theorem collapseAux_wsNormal :
    ∀ (s : List Nat), (∀ f, wsNormal (collapseAux f s) = true) ∧
      headIsSpace (collapseAux true s) = false := by
  intro s
  induction s with
  | nil => exact ⟨fun f => by cases f <;> rfl, rfl⟩
  | cons a rest ih =>
      by_cases ha : isPySpace a = true
      · refine ⟨fun f => ?_, ?_⟩
        · cases f
          · rw [collapseAux, if_pos ha]
            simp only [wsNormal]
            rw [ih.2]
            simp [isPySpace, ih.1 true]
          · rw [collapseAux, if_pos ha]
            exact ih.1 true
        · rw [collapseAux, if_pos ha]
          exact ih.2
      · refine ⟨fun f => ?_, ?_⟩
        · cases f <;> rw [collapseAux, if_neg ha] <;>
            simp only [wsNormal] <;> simp [ha, ih.1 false]
        · rw [collapseAux, if_neg ha]
          simpa [headIsSpace] using ha

theorem collapseAux_id :
    ∀ (s : List Nat), wsNormal s = true →
      collapseAux false s = s ∧ (headIsSpace s = false → collapseAux true s = s) := by
  intro s
  induction s with
  | nil => exact fun _ => ⟨rfl, fun _ => rfl⟩
  | cons a rest ih =>
      intro hws
      by_cases ha : isPySpace a = true
      · have hcond : (a == 32 && !(headIsSpace rest)) = true ∧ wsNormal rest = true := by
          rw [wsNormal, if_pos ha, Bool.and_eq_true] at hws
          exact hws
        have ha32 : a = 32 := by
          have := ((Bool.and_eq_true _ _).mp hcond.1).1
          simpa using this
        have hhead : headIsSpace rest = false := by
          have := ((Bool.and_eq_true _ _).mp hcond.1).2
          simpa using this
        refine ⟨?_, fun hh => ?_⟩
        · rw [collapseAux, if_pos ha, (ih hcond.2).2 hhead, ha32]
        · rw [headIsSpace] at hh
          rw [ha] at hh
          cases hh
      · have hws' : wsNormal rest = true := by
          rw [wsNormal, if_neg ha, Bool.true_and] at hws
          exact hws
        refine ⟨?_, fun _ => ?_⟩
        · rw [collapseAux, if_neg ha, (ih hws').1]
        · rw [collapseAux, if_neg ha, (ih hws').1]

theorem headIsSpace_collapseAux_false {s : List Nat} (h : headIsSpace s = false) :
    headIsSpace (collapseAux false s) = false := by
  cases s with
  | nil => rfl
  | cons a rest =>
      have ha : ¬ isPySpace a = true := by
        simp [headIsSpace] at h
        simp [h]
      rw [collapseAux, if_neg ha]
      simpa [headIsSpace] using ha

theorem normalizeText_fixed_chars {x : List Nat} :
    ∀ c ∈ normalizeText x, pyLower c = c := by
  intro c hc
  rw [normalizeText, collapseWS] at hc
  rcases mem_collapseAux false _ hc with h32 | hmem
  · rw [h32]
    rfl
  · obtain ⟨a, _, rfl⟩ := List.mem_map.mp (mem_pyStrip hmem)
    exact pyLower_pyLower a

/-- Claim C9. `normalize` (message mode: lowercase, strip, collapse whitespace
runs) is idempotent. -/
theorem C9_normalize_idempotent (x : List Nat) :
    normalizeText (normalizeText x) = normalizeText x := by
  have hmap : (normalizeText x).map pyLower = normalizeText x :=
    map_id_of_fixed normalizeText_fixed_chars
  have hhead : headIsSpace (normalizeText x) = false := by
    rw [normalizeText, collapseWS]
    exact headIsSpace_collapseAux_false (headIsSpace_pyStrip _)
  have hlast : lastIsSpace (normalizeText x) = false := by
    rw [normalizeText, collapseWS]
    exact lastIsSpace_collapseAux (lastIsSpace_pyStrip _) false
  have hws : wsNormal (normalizeText x) = true := by
    rw [normalizeText, collapseWS]
    exact (collapseAux_wsNormal _).1 false
  conv_lhs => rw [normalizeText, collapseWS, hmap, pyStrip_id hhead hlast]
  exact (collapseAux_id _ hws).1

/-! Section: C4: coverage by a placeholder-free template -/

theorem wsNormal_tail {x : Nat} {m : List Nat} (h : wsNormal (x :: m) = true) :
    wsNormal m = true := by
  rw [wsNormal, Bool.and_eq_true] at h
  exact h.2

theorem spaceSuffixes_of_headNotSpace {m : List Nat} (h : headIsSpace m = false) :
    spaceSuffixes m = [m] := by
  cases m with
  | nil => rfl
  | cons x m' =>
      have hx : ¬ isPySpace x = true := by
        simp [headIsSpace] at h
        simp [h]
      rw [spaceSuffixes, if_neg hx]

theorem fmatch_ws_nil (fs : List Frag) :
    fmatch (Frag.ws :: fs) [] = fmatch fs [] := by
  simp [fmatch, spaceSuffixes]

theorem fmatch_ws_cons {fs : List Frag} {x : Nat} {m' : List Nat}
    (hm : wsNormal (x :: m') = true) :
    fmatch (Frag.ws :: fs) (x :: m') =
      (fmatch fs (x :: m') || (x == 32 && fmatch fs m')) := by
  by_cases hx : isPySpace x = true
  · have hm' : (x == 32 && !(headIsSpace m')) = true ∧ wsNormal m' = true := by
      rw [wsNormal, if_pos hx, Bool.and_eq_true] at hm
      exact hm
    have hx32 : (x == 32) = true := ((Bool.and_eq_true _ _).mp hm'.1).1
    have hh : headIsSpace m' = false := by
      have := ((Bool.and_eq_true _ _).mp hm'.1).2
      simpa using this
    rw [fmatch, spaceSuffixes, if_pos hx, spaceSuffixes_of_headNotSpace hh]
    simp [List.any_cons, hx32]
  · have hx32 : (x == 32) = false := by
      cases heq : (x == 32)
      · rfl
      · have hx' : x = 32 := by simpa using heq
        rw [hx'] at hx
        simp [isPySpace] at hx
    rw [fmatch, spaceSuffixes, if_neg hx]
    simp [List.any_cons, hx32]

theorem spacesOpt_cons (t : Nat) (ts ms : List Nat) :
    spacesOpt (t :: ts) ms =
      if t == 32 then
        spacesOpt ts ms ||
          (match ms with
           | m :: ms' => m == 32 && spacesOpt ts ms'
           | [] => false)
      else
        match ms with
        | m :: ms' => m == t && spacesOpt ts ms'
        | [] => false := by
  rw [spacesOpt.eq_def]

theorem fmatch_litToks_spacesOpt :
    ∀ (n m : List Nat), wsNormal m = true → fmatch (litToks n) m = spacesOpt n m := by
  intro n
  induction n with
  | nil =>
      intro m _
      rfl
  | cons t ts ih =>
      intro m hm
      by_cases ht : (t == 32) = true
      · have hlit : litToks (t :: ts) = Frag.ws :: litToks ts := by
          simp [litToks, litTok, ht]
        cases m with
        | nil =>
            rw [hlit, fmatch_ws_nil, spacesOpt_cons, if_pos ht]
            simp [ih [] rfl]
        | cons x m' =>
            rw [hlit, fmatch_ws_cons hm, spacesOpt_cons, if_pos ht,
              ih (x :: m') hm, ih m' (wsNormal_tail hm)]
      · have hlit : litToks (t :: ts) = Frag.lit t :: litToks ts := by
          simp [litToks, litTok, ht]
        rw [hlit, spacesOpt_cons, if_neg ht]
        cases m with
        | nil => rfl
        | cons x m' =>
            rw [fmatch, ih m' (wsNormal_tail hm)]

theorem compileSt_false_noPH {s : List Nat} (h : hasPH s = false) :
    compileSt false s = litToks s := by
  induction s with
  | nil => rfl
  | cons c rest ih =>
      rw [hasPH, Bool.or_eq_false_iff] at h
      simp only [compileSt, h.1, Bool.false_eq_true, if_false, litToks, List.map_cons]
      exact congrArg _ (ih h.2)

theorem wsNormal_normalizeText (m : List Nat) : wsNormal (normalizeText m) = true := by
  rw [normalizeText, collapseWS]
  exact (collapseAux_wsNormal _).1 false

/-- Claim C4, counterexample. The placeholder-free template `"a b"` covers the
message `"ab"`, which is not equal to it modulo case and whitespace-run
collapsing: a template space compiles to `\s*` (zero-or-more whitespace),
not to exactly one space, so equality modulo case and collapse is not
necessary for coverage. -/
theorem C4_counterexample :
    ((60 : Nat) ∉ [97, 32, 98] ∧ (62 : Nat) ∉ [97, 32, 98]) ∧
      is_covered [97, 98] [patternOf [97, 32, 98]] = true ∧
      normalizeText [97, 98] ≠ normalizeText [97, 32, 98] := by
  decide

/-- Claim C4, amended. For a template without placeholders, a message is
covered exactly when its normalization matches the normalized template with
every template space standing for zero or one space of the message (and all
other characters matched exactly, in full length — so equality modulo case
and whitespace collapsing is sufficient, extra leading or trailing content
still never matches, but template whitespace may be absent from the
message). -/
theorem C4_amended_cover_iff (t m : List Nat)
    (hph : hasPH (normalizeText t) = false) :
    is_covered m [patternOf t] = spacesOpt (normalizeText t) (normalizeText m) := by
  rw [is_covered]
  simp only [List.any_cons, List.any_nil, Bool.or_false]
  rw [patternOf, compileFrags, compileSt_false_noPH hph]
  exact fmatch_litToks_spacesOpt _ _ (wsNormal_normalizeText m)

/-- Claim C4, witness for the amended theorem at the template `"a b"` and
message `"ab"`. -/
theorem C4_witness :
    hasPH (normalizeText [97, 32, 98]) = false ∧
      is_covered [97, 98] [patternOf [97, 32, 98]] =
        spacesOpt (normalizeText [97, 32, 98]) (normalizeText [97, 98]) :=
  ⟨by decide, C4_amended_cover_iff [97, 32, 98] [97, 98] (by decide)⟩

/-! Section: C1, C7: the parallel evaluator -/

theorem foldl_set_getElem? {α : Type} (f : Nat → α) (order : List Nat)
    (init : List α) (j : Nat) :
    (order.foldl (fun res i => res.set i (f i)) init)[j]? =
      if j ∈ order ∧ j < init.length then some (f j) else init[j]? := by
  induction order generalizing init with
  | nil => simp
  | cons i rest ih =>
      rw [List.foldl_cons, ih, List.length_set]
      by_cases hlen : j < init.length
      · by_cases hmem : j ∈ rest
        · simp [hmem, hlen, List.mem_cons]
        · rw [List.getElem?_set]
          by_cases hij : i = j
          · subst hij
            simp [hmem, hlen, List.mem_cons]
          · simp [hmem, hlen, hij, Ne.symm hij, List.mem_cons]
      · have h0 : init[j]? = none := List.getElem?_eq_none (le_of_not_lt hlen)
        rw [List.getElem?_set]
        by_cases hij : i = j
        · subst hij
          simp [hlen, h0]
        · simp [hij, hlen, h0]

/-- Claim C1. For any completion order of the units that is a permutation of
the record indices, the materialized result list has exactly one entry per
record, and the entry at index `i` is the coverage check of record `i` (or
`false` when that unit failed) — the completion order does not appear in the
result. -/
theorem C1_results_indexed_by_record (reg : List (List Nat × List (List Frag)))
    (rows : List (List Nat × List Nat)) (fail : Nat → Bool) (order : List Nat)
    (horder : order.Perm (List.range rows.length)) :
    evaluateBatch reg rows fail order =
      (List.range rows.length).map
        (fun i => some (if fail i then false else check_row reg (rows.getD i ([], [])))) := by
  apply List.ext_getElem?
  intro j
  rw [evaluateBatch, foldl_set_getElem?, List.length_replicate]
  have hmem : j ∈ order ↔ j < rows.length := by
    rw [horder.mem_iff, List.mem_range]
  by_cases hj : j < rows.length
  · rw [if_pos ⟨hmem.mpr hj, hj⟩, List.getElem?_map, List.getElem?_range hj]
    rfl
  · rw [if_neg (fun h => hj h.2), List.getElem?_replicate, if_neg hj, List.getElem?_map,
      List.getElem?_eq_none (by simpa [List.length_range] using le_of_not_lt hj)]
    rfl

/-- Claim C1, witness: a two-record batch whose units complete in reversed
order. -/
theorem C1_witness :
    ([1, 0].Perm (List.range [([104], [97]), ([104], [98])].length)) ∧
      evaluateBatch [] [([104], [97]), ([104], [98])] (fun _ => false) [1, 0] =
        (List.range [([104], [97]), ([104], [98])].length).map
          (fun i => some (if (fun _ => false) i then false
            else check_row [] ([([104], [97]), ([104], [98])].getD i ([], [])))) :=
  ⟨by decide,
    C1_results_indexed_by_record [] [([104], [97]), ([104], [98])] (fun _ => false)
      [1, 0] (by decide)⟩

/-- Claim C7. When exactly the unit of record `i0` throws, its slot defaults
to `false` while every other record's slot holds its correct coverage
check; the batch still produces a result for every record. -/
theorem C7_one_failing_unit (reg : List (List Nat × List (List Frag)))
    (rows : List (List Nat × List Nat)) (i0 : Nat) (order : List Nat)
    (fail : Nat → Bool) (horder : order.Perm (List.range rows.length))
    (hi0 : i0 < rows.length) (hfail : ∀ i, fail i = (i == i0)) :
    (evaluateBatch reg rows fail order)[i0]? = some (some false) ∧
      ∀ j, j < rows.length → j ≠ i0 →
        (evaluateBatch reg rows fail order)[j]? =
          some (some (check_row reg (rows.getD j ([], [])))) := by
  have hmem : ∀ j, j ∈ order ↔ j < rows.length := fun j => by
    rw [horder.mem_iff, List.mem_range]
  constructor
  · rw [evaluateBatch, foldl_set_getElem?, List.length_replicate,
      if_pos ⟨(hmem i0).mpr hi0, hi0⟩]
    simp [unitResult, hfail i0]
  · intro j hj hne
    rw [evaluateBatch, foldl_set_getElem?, List.length_replicate,
      if_pos ⟨(hmem j).mpr hj, hj⟩]
    simp [unitResult, hfail j, hne]

/-- Claim C7, witness: the first of two units throws; the second still
reports its check. -/
theorem C7_witness :
    ([1, 0].Perm (List.range [([104], [97]), ([104], [98])].length)) ∧
      (0 < [([104], [97]), ([104], [98])].length) ∧
      ((evaluateBatch [] [([104], [97]), ([104], [98])] (fun i => i == 0) [1, 0])[0]? =
          some (some false) ∧
        ∀ j, j < [([104], [97]), ([104], [98])].length → j ≠ 0 →
          (evaluateBatch [] [([104], [97]), ([104], [98])] (fun i => i == 0) [1, 0])[j]? =
            some (some (check_row [] ([([104], [97]), ([104], [98])].getD j ([], []))))) :=
  ⟨by decide, by decide,
    C7_one_failing_unit [] [([104], [97]), ([104], [98])] 0 [1, 0] (fun i => i == 0)
      (by decide) (by decide) (fun i => rfl)⟩

/-- Claim C10, witness at the template `"a<b"`. -/
theorem C10_witness :
    (normalizeText [97, 60, 98] = [97] ++ 60 :: [98] ∧ (62 : Nat) ∉ [98]) ∧
      (patternOf [97, 60, 98] = compileFrags [97] ++ (Frag.lit 60 :: litToks [98]) ∧
        Frag.wild ∉ Frag.lit 60 :: litToks [98]) :=
  ⟨⟨by decide, by decide⟩,
    C10_unbalanced_marker_literal [97, 60, 98] [97] [98] (by decide) (by decide)⟩
